import Mathlib

/-!
Verification development for `beatsaver-watch.py`, a single-file poller that
watches the BeatSaver "latest maps" listing and emails the new items since the
previous run.  The embedding below translates the pure logic of the script:

* the raw-document identity function `doc_uid`;
* the merged paginated fetcher `fetch_merged_latest_for_tags` (network calls
  abstracted as a page-indexed function returning either a document list or a
  fetch error);
* the state store `load_state` (file contents abstracted as either a valid
  JSON state, a corrupt file, or an absent file);
* the whole of `main`: score filtering, newest-first stable sorting,
  delta/candidate classification, in-run and cross-run deduplication, preview
  selection, watermark advance with clamping to "now", and the bounded
  `seen_ids` persistence.

Timestamps are modelled as `Nat` (UTC instants; `0` plays the role of
`datetime.min`).  Python sets keyed by insertion are modelled as
duplicate-free lists (membership is all that the logic observes, except for
the final `list(seen_ids)[-20000:]` truncation, whose element order in Python
is unspecified; we fix insertion order).  Emails are modelled as a pure output
field rather than an SMTP side effect.
-/

set_option maxRecDepth 8192

/-- Normalized item as produced by `normalize_doc`: the stable identity
`uid`, the optional creation instant `created_at`, and the optional score.
The remaining fields (name, bpm, urls, ...) are presentation-only and never
consulted by the synchronization logic. -/
structure Item where
  uid : String
  created_at : Option Nat
  score : Option ℚ
deriving DecidableEq, Repr

/-- Persisted synchronization state (`data/bs_state.json`): `last_seen` is the
watermark, `seen_ids` the list of already-delivered identities. -/
structure SyncState where
  last_seen : Option Nat
  seen_ids : List String
deriving DecidableEq, Repr

/-- Environment-derived configuration of a run: `BS_MIN_SCORE`,
`PREVIEW_LAST_N` (an `Int`, since the environment variable may be negative),
`DRY_RUN` and `ALWAYS_EMAIL`. -/
structure Config where
  minScore : ℚ
  previewN : Int
  dryRun : Bool
  alwaysEmail : Bool
deriving DecidableEq, Repr

/-- Outcome of one `main` run: the computed new-set, the email that was sent
(`none` when nothing was dispatched; the `Bool` is the `is_preview` flag), and
the state written by `save_state`. -/
structure RunResult where
  newItems : List Item
  emailed : Option (List Item × Bool)
  finalState : SyncState
deriving DecidableEq, Repr

/-- Contents of the state file as seen by `load_state`: either valid JSON
encoding a state, or bytes that `json.load` fails to parse. -/
inductive FileContent where
  | valid (st : SyncState)
  | corrupt
deriving DecidableEq

/-- Embedding of `load_state`.  The argument is the state file (`none` when
`STATE_PATH.exists()` is false).  When the file exists, `json.load` is run on
it: a corrupt file makes `json.load` raise, and the exception propagates out
of `load_state` (there is no `try` around it), modelled as `Except.error`. -/
def load_state : Option FileContent → Except Unit SyncState
  | some (FileContent.valid st) => Except.ok st
  | some FileContent.corrupt => Except.error ()
  | none => Except.ok { last_seen := none, seen_ids := [] }

/-- One entry of a raw document's `versions` array. -/
structure RawVersion where
  key : Option String
  hash : Option String
deriving DecidableEq, Repr

/-- Raw BeatSaver document, restricted to the fields `doc_uid` reads.
`createdAt` is the parsed creation instant of the raw `createdAt` string
(`none` when the field is missing); the raw string itself is recovered as the
decimal rendering where `doc_uid` interpolates it. -/
structure RawDoc where
  id : Option String
  versions : List RawVersion
  name : String
  createdAt : Option Nat
deriving DecidableEq, Repr

/-- Python truthiness for an optional string field: `None` and the empty
string are falsy. -/
def strVal : Option String → Option String
  | none => none
  | some s => if s = "" then none else some s

/-- Embedding of `doc_uid`: primary `id` field, else the first version's
`key` or `hash`, else the `name|createdAt` composite. -/
def doc_uid (d : RawDoc) : String :=
  match strVal d.id with
  | some s => s
  | none =>
    match d.versions with
    | v0 :: _ =>
      (match strVal v0.key with
       | some s => s
       | none =>
         match strVal v0.hash with
         | some s => s
         | none => d.name ++ "|" ++ (match d.createdAt with | some t => toString t | none => ""))
    | [] => d.name ++ "|" ++ (match d.createdAt with | some t => toString t | none => "")

/-- The inner per-page accumulation of `fetch_merged_latest_for_tags`: append
each document whose `doc_uid` has not been seen, recording it in `seen`.  The
accumulator is `(merged, seen)`. -/
def insertDocs (acc : List RawDoc × List String) (docs : List RawDoc) : List RawDoc × List String :=
  docs.foldl
    (fun acc' d =>
      if doc_uid d ∈ acc'.2 then acc'
      else (acc'.1 ++ [d], doc_uid d :: acc'.2))
    acc

/-- The page loop of `fetch_merged_latest_for_tags` for one fetch function
(one tag, or the unfiltered `/maps/latest` branch).  `fuel` is the remaining
page budget, `page` the next page index.  Returns the final accumulator and
the number of page requests issued: a failed request or an empty page counts
as one request and stops; a non-empty page is merged and the loop continues. -/
def scanTagPages (fetchPage : Nat → Except Unit (List RawDoc)) :
    Nat → Nat → List RawDoc × List String → (List RawDoc × List String) × Nat
  | 0, _, acc => (acc, 0)
  | fuel + 1, page, acc =>
    match fetchPage page with
    | Except.error _ => (acc, 1)
    | Except.ok [] => (acc, 1)
    | Except.ok (d :: ds) =>
      let r := scanTagPages fetchPage fuel (page + 1) (insertDocs acc (d :: ds))
      (r.1, r.2 + 1)

/-- Embedding of `fetch_merged_latest_for_tags`.  `fetchSearch tag page` is
the `/search/text` request for one tag and page, `fetchLatest page` the
unfiltered `/maps/latest` request; either may fail.  With tags, the per-tag
page loops share one `(merged, seen)` accumulator; without tags a single
unfiltered loop runs. -/
def fetch_merged_latest_for_tags (fetchSearch : String → Nat → Except Unit (List RawDoc))
    (fetchLatest : Nat → Except Unit (List RawDoc))
    (tags : List String) (maxPages : Nat) : List RawDoc :=
  match tags with
  | [] => ((scanTagPages fetchLatest maxPages 0 ([], [])).1).1
  | t :: ts => ((t :: ts).foldl (fun acc tag => (scanTagPages (fetchSearch tag) maxPages 0 acc).1) ([], [])).1

/-- Number of page requests a single page loop issues for a given fetch
function and page budget. -/
def pagesRequested (fetchPage : Nat → Except Unit (List RawDoc)) (maxPages : Nat) : Nat :=
  (scanTagPages fetchPage maxPages 0 ([], [])).2

/-- A page request that succeeds with a non-empty document list, i.e. one
after which the page loop keeps going. -/
def goodPage (fetchPage : Nat → Except Unit (List RawDoc)) (i : Nat) : Prop :=
  ∃ d ds, fetchPage i = Except.ok (d :: ds)

/-- Sort key used by `main`: `it["created_at"] or datetime.min`, with
`datetime.min` modelled as `0`. -/
def sortKey (it : Item) : Nat :=
  it.created_at.getD 0

/-- Stable descending insertion: the new item goes after every already-placed
item of greater-or-equal key.  Folding it over the pool reproduces Python's
stable `sort(key=..., reverse=True)`. -/
def insertDesc (it : Item) : List Item → List Item
  | [] => [it]
  | x :: xs => if sortKey x < sortKey it then it :: x :: xs else x :: insertDesc it xs

/-- Embedding of `items_all.sort(key=lambda it: it["created_at"] or
datetime.min, reverse=True)`: stable, newest first, missing timestamps last. -/
def sortPool (items : List Item) : List Item :=
  items.foldl (fun acc it => insertDesc it acc) []

/-- Embedding of the optional score filter: applied only when
`BS_MIN_SCORE > 0`, keeping items whose score is present and at least the
minimum. -/
def scoreFiltered (minScore : ℚ) (pool : List Item) : List Item :=
  if 0 < minScore then
    pool.filter (fun x =>
      match x.score with
      | some s => decide (minScore ≤ s)
      | none => false)
  else pool

/-- The run's working pool `items_all`: the fetched pool, score-filtered,
sorted newest to oldest. -/
def itemsAll (cfg : Config) (pool : List Item) : List Item :=
  sortPool (scoreFiltered cfg.minScore pool)

/-- The delta classification predicate of `main` (the `candidates` list
comprehension): new iff the timestamp is present and strictly above the
watermark, or the timestamp is absent and the identity was never delivered. -/
def isNewCandidate (wm : Nat) (seen_ids : List String) (it : Item) : Bool :=
  (match it.created_at with
   | some t => decide (wm < t)
   | none => false) ||
  (it.created_at.isNone && !(decide (it.uid ∈ seen_ids)))

/-- Embedding of the `candidates` computation: empty in seed mode (no
`last_seen`), otherwise the filter of `items_all` by `isNewCandidate` against
the loaded `seen_ids` set. -/
def candidatesOf (st : SyncState) (items_all : List Item) : List Item :=
  match st.last_seen with
  | some wm => items_all.filter (isNewCandidate wm st.seen_ids.dedup)
  | none => []

/-- One step of the `new_items` deduplication loop: skip an item whose uid is
empty, already delivered, or already taken this run; otherwise record the uid
in `run_seen` and append the item.  Accumulator is `(run_seen, new_items)`. -/
def dedupStep (seen_ids : List String) (acc : List String × List Item) (it : Item) :
    List String × List Item :=
  if it.uid = "" ∨ it.uid ∈ seen_ids ∨ it.uid ∈ acc.1 then acc
  else (it.uid :: acc.1, acc.2 ++ [it])

/-- Embedding of the `new_items` loop over `candidates`. -/
def newItemsOf (seen_ids : List String) (candidates : List Item) : List Item :=
  (candidates.foldl (dedupStep seen_ids) ([], [])).2

/-- Embedding of step 3 of `main`: when the tag pool is empty, a small
unfiltered pull (`fb`, already normalized) is sorted and truncated to the
preview size; otherwise no fallback preview is built. -/
def fallbackPreviewOf (cfg : Config) (items_all : List Item) (fb : List Item) : List Item :=
  if items_all = [] then (sortPool fb).take (max cfg.previewN 0).toNat else []

/-- The preview chosen in step 4 of `main`: the head of the tag pool, or the
fallback preview when the tag pool is empty. -/
def previewOf (cfg : Config) (items_all fallback_preview : List Item) : List Item :=
  if items_all ≠ [] then items_all.take (max cfg.previewN 0).toNat else fallback_preview

/-- Embedding of step 4 of `main` (dispatch): send the new items, else (when
not dry-running) send a preview from the tag pool or the fallback, subject to
`preview or ALWAYS_EMAIL`. -/
def emailedOf (cfg : Config) (items_all new_items fallback_preview : List Item) :
    Option (List Item × Bool) :=
  if new_items ≠ [] ∧ cfg.dryRun = false then some (new_items, false)
  else if cfg.dryRun = false then
    (if previewOf cfg items_all fallback_preview ≠ [] ∨ cfg.alwaysEmail = true then
      some (previewOf cfg items_all fallback_preview, true)
     else none)
  else none

/-- Python's `max(gen, default=d)` over the present timestamps. -/
def maxWithDefault (l : List Nat) (dflt : Option Nat) : Option Nat :=
  match l with
  | [] => dflt
  | x :: xs => some (xs.foldl Nat.max x)

/-- The clamp `if newest_ts and newest_ts > now_utc: newest_ts = now_utc`
(`newest_ts` is a datetime, hence truthy exactly when present). -/
def clampToNow (now : Nat) : Option Nat → Option Nat
  | some t => some (if now < t then now else t)
  | none => none

/-- Embedding of step 5 of `main` (watermark advance): the maximum present
timestamp of the pool, defaulting to the loaded watermark, clamped to now;
the state field is only assigned when the result is present. -/
def lastSeenAfter (st : SyncState) (now : Nat) (items_all : List Item) : Option Nat :=
  match clampToNow now (maxWithDefault (items_all.filterMap Item.created_at) st.last_seen) with
  | some t => some t
  | none => st.last_seen

/-- Embedding of the `seen_ids.add(uid)` loop over the delivered new items
(set insertion modelled as append-if-absent). -/
def addNewUids (seen_ids : List String) (new_items : List Item) : List String :=
  new_items.foldl (fun s it => if it.uid ≠ "" ∧ it.uid ∉ s then s ++ [it.uid] else s) seen_ids

/-- Python's `l[-n:]`: the suffix of the last `n` elements (all of `l` when it
is shorter). -/
def takeLast (n : Nat) (l : List String) : List String :=
  (l.reverse.take n).reverse

/-- Embedding of `main` as a pure function of the loaded state, the fetched
tag pool (already normalized, in fetch order), the normalized unfiltered
fallback pull, and the current time.  The `seen_ids` JSON list is loaded into
a set, modelled as `dedup`. -/
def mainRun (cfg : Config) (st : SyncState) (pool fb : List Item) (now : Nat) : RunResult :=
  { newItems := newItemsOf st.seen_ids.dedup (candidatesOf st (itemsAll cfg pool))
    emailed := emailedOf cfg (itemsAll cfg pool)
      (newItemsOf st.seen_ids.dedup (candidatesOf st (itemsAll cfg pool)))
      (fallbackPreviewOf cfg (itemsAll cfg pool) fb)
    finalState :=
      { last_seen := lastSeenAfter st now (itemsAll cfg pool)
        seen_ids := takeLast 20000
          (addNewUids st.seen_ids.dedup
            (newItemsOf st.seen_ids.dedup (candidatesOf st (itemsAll cfg pool)))) } }

/-! ### Helper lemmas -/

theorem takeLast_length_le (n : Nat) (l : List String) : (takeLast n l).length ≤ n := by
  simp only [takeLast, List.length_reverse, List.length_take]
  omega

theorem takeLast_of_length_le (n : Nat) (l : List String) (h : l.length ≤ n) :
    takeLast n l = l := by
  rw [takeLast, List.take_of_length_le (by rwa [List.length_reverse]), List.reverse_reverse]

theorem mem_foldl_dedupStep (s : List String) :
    ∀ (l : List Item) (acc : List String × List Item) (it : Item),
      it ∈ (l.foldl (dedupStep s) acc).2 → it ∈ acc.2 ∨ (it ∈ l ∧ it.uid ∉ s) := by
  intro l
  induction l with
  | nil => intro acc it h; exact Or.inl h
  | cons x xs ih =>
    intro acc it h
    rw [List.foldl_cons] at h
    rcases ih (dedupStep s acc x) it h with h' | h'
    · by_cases hc : x.uid = "" ∨ x.uid ∈ s ∨ x.uid ∈ acc.1
      · rw [dedupStep, if_pos hc] at h'
        exact Or.inl h'
      · rw [dedupStep, if_neg hc] at h'
        simp only [List.mem_append, List.mem_singleton] at h'
        rcases h' with h'' | h''
        · exact Or.inl h''
        · subst h''
          push_neg at hc
          exact Or.inr ⟨List.mem_cons_self _ _, hc.2.1⟩
    · exact Or.inr ⟨List.mem_cons_of_mem _ h'.1, h'.2⟩

theorem mem_newItemsOf (s : List String) (cands : List Item) (it : Item)
    (h : it ∈ newItemsOf s cands) : it ∈ cands ∧ it.uid ∉ s := by
  rcases mem_foldl_dedupStep s cands ([], []) it h with h' | h'
  · exact absurd h' (List.not_mem_nil it)
  · exact h'

theorem mem_candidatesOf (st : SyncState) (items_all : List Item) (w : Nat)
    (hw : st.last_seen = some w) (it : Item) :
    it ∈ candidatesOf st items_all ↔
      it ∈ items_all ∧
        ((∃ t, it.created_at = some t ∧ w < t) ∨
          (it.created_at = none ∧ it.uid ∉ st.seen_ids)) := by
  rw [candidatesOf, hw]
  rw [List.mem_filter]
  constructor
  · rintro ⟨hmem, hpred⟩
    refine ⟨hmem, ?_⟩
    rw [isNewCandidate, Bool.or_eq_true] at hpred
    rcases hpred with hpred | hpred
    · cases hct : it.created_at with
      | none => rw [hct] at hpred; exact absurd hpred (by simp)
      | some t =>
        rw [hct] at hpred
        exact Or.inl ⟨t, rfl, of_decide_eq_true hpred⟩
    · rw [Bool.and_eq_true] at hpred
      refine Or.inr ⟨Option.isNone_iff_eq_none.mp hpred.1, ?_⟩
      have h2 := hpred.2
      rw [Bool.not_eq_eq_eq_not, Bool.not_true, decide_eq_false_iff_not] at h2
      rw [← List.mem_dedup]
      exact h2
  · rintro ⟨hmem, hpred⟩
    refine ⟨hmem, ?_⟩
    rw [isNewCandidate, Bool.or_eq_true]
    rcases hpred with ⟨t, hct, hlt⟩ | ⟨hct, hseen⟩
    · exact Or.inl (by rw [hct]; exact decide_eq_true hlt)
    · refine Or.inr ?_
      rw [Bool.and_eq_true]
      refine ⟨by rw [hct]; rfl, ?_⟩
      rw [Bool.not_eq_eq_eq_not, Bool.not_true, decide_eq_false_iff_not]
      rw [List.mem_dedup]
      exact hseen

theorem le_foldl_max (xs : List Nat) : ∀ (x : Nat),
    x ≤ xs.foldl Nat.max x ∧ ∀ t ∈ xs, t ≤ xs.foldl Nat.max x := by
  induction xs with
  | nil => intro x; exact ⟨Nat.le_refl x, by intro t ht; exact absurd ht (List.not_mem_nil t)⟩
  | cons y ys ih =>
    intro x
    rw [List.foldl_cons]
    rcases ih (Nat.max x y) with ⟨h1, h2⟩
    refine ⟨Nat.le_trans (Nat.le_max_left x y) h1, ?_⟩
    intro t ht
    rcases List.mem_cons.mp ht with rfl | ht'
    · exact Nat.le_trans (Nat.le_max_right x t) h1
    · exact h2 t ht'

/-! ### Fetcher deduplication invariant (for C10) -/

theorem insertDocs_inv (docs : List RawDoc) :
    ∀ (acc : List RawDoc × List String),
      ((acc.1.map doc_uid).Nodup ∧ ∀ u ∈ acc.1.map doc_uid, u ∈ acc.2) →
      (((insertDocs acc docs).1.map doc_uid).Nodup ∧
        ∀ u ∈ (insertDocs acc docs).1.map doc_uid, u ∈ (insertDocs acc docs).2) := by
  induction docs with
  | nil => intro acc h; exact h
  | cons d ds ih =>
    intro acc h
    rw [insertDocs, List.foldl_cons]
    by_cases hc : doc_uid d ∈ acc.2
    · rw [if_pos hc]
      exact ih acc h
    · rw [if_neg hc]
      refine ih _ ⟨?_, ?_⟩
      · simp only [List.map_append, List.map_cons, List.map_nil]
        rw [List.nodup_append]
        refine ⟨h.1, List.nodup_singleton _, ?_⟩
        intro u hu hu'
        rw [List.mem_singleton] at hu'
        subst hu'
        exact hc (h.2 _ hu)
      · intro u hu
        simp only [List.map_append, List.map_cons, List.map_nil, List.mem_append,
          List.mem_singleton] at hu
        rcases hu with hu | hu
        · exact List.mem_cons_of_mem _ (h.2 u hu)
        · subst hu; exact List.mem_cons_self _ _

theorem scanTagPages_inv (fetchPage : Nat → Except Unit (List RawDoc)) :
    ∀ (fuel page : Nat) (acc : List RawDoc × List String),
      ((acc.1.map doc_uid).Nodup ∧ ∀ u ∈ acc.1.map doc_uid, u ∈ acc.2) →
      ((((scanTagPages fetchPage fuel page acc).1.1.map doc_uid).Nodup ∧
        ∀ u ∈ (scanTagPages fetchPage fuel page acc).1.1.map doc_uid,
          u ∈ (scanTagPages fetchPage fuel page acc).1.2)) := by
  intro fuel
  induction fuel with
  | zero => intro page acc h; exact h
  | succ n ih =>
    intro page acc h
    rw [scanTagPages]
    cases hf : fetchPage page with
    | error e => exact h
    | ok docs =>
      cases docs with
      | nil => exact h
      | cons d ds =>
        simp only
        exact ih (page + 1) (insertDocs acc (d :: ds)) (insertDocs_inv (d :: ds) acc h)

/-! ### Page-count lemmas (for C3) -/

theorem scanTagPages_count_all_good (fetchPage : Nat → Except Unit (List RawDoc)) :
    ∀ (fuel page : Nat) (acc : List RawDoc × List String),
      (∀ i, i < fuel → goodPage fetchPage (page + i)) →
      (scanTagPages fetchPage fuel page acc).2 = fuel := by
  intro fuel
  induction fuel with
  | zero => intro page acc _; rfl
  | succ n ih =>
    intro page acc h
    rcases h 0 (Nat.succ_pos n) with ⟨d, ds, hd⟩
    rw [scanTagPages]
    rw [Nat.add_zero] at hd
    rw [hd]
    simp only
    rw [ih (page + 1) (insertDocs acc (d :: ds)) (fun i hi => by
      have := h (i + 1) (Nat.succ_lt_succ hi)
      rwa [Nat.add_comm i 1, ← Nat.add_assoc] at this)]

theorem scanTagPages_count_stop (fetchPage : Nat → Except Unit (List RawDoc)) :
    ∀ (k fuel page : Nat) (acc : List RawDoc × List String),
      k < fuel →
      (∀ i, i < k → goodPage fetchPage (page + i)) →
      ¬ goodPage fetchPage (page + k) →
      (scanTagPages fetchPage fuel page acc).2 = k + 1 := by
  intro k
  induction k with
  | zero =>
    intro fuel page acc hk _ hbad
    cases fuel with
    | zero => exact absurd hk (Nat.lt_irrefl 0)
    | succ n =>
      rw [scanTagPages]
      rw [Nat.add_zero] at hbad
      cases hf : fetchPage page with
      | error e => rfl
      | ok docs =>
        cases docs with
        | nil => rfl
        | cons d ds => exact absurd ⟨d, ds, hf⟩ hbad
  | succ m ih =>
    intro fuel page acc hk hgood hbad
    cases fuel with
    | zero => exact absurd hk (Nat.not_lt_zero _)
    | succ n =>
      rcases hgood 0 (Nat.succ_pos m) with ⟨d, ds, hd⟩
      rw [Nat.add_zero] at hd
      rw [scanTagPages, hd]
      simp only
      rw [ih n (page + 1) (insertDocs acc (d :: ds)) (Nat.lt_of_succ_lt_succ hk)
        (fun i hi => by
          have := hgood (i + 1) (Nat.succ_lt_succ hi)
          rwa [Nat.add_comm i 1, ← Nat.add_assoc] at this)
        (by
          have heq : page + 1 + m = page + (m + 1) := by omega
          rw [heq]
          exact hbad)]

theorem foldTags_inv (fetchSearch : String → Nat → Except Unit (List RawDoc)) (maxPages : Nat) :
    ∀ (l : List String) (acc : List RawDoc × List String),
      ((acc.1.map doc_uid).Nodup ∧ ∀ u ∈ acc.1.map doc_uid, u ∈ acc.2) →
      (((l.foldl (fun acc tag => (scanTagPages (fetchSearch tag) maxPages 0 acc).1) acc).1.map
          doc_uid).Nodup ∧
        ∀ u ∈ (l.foldl (fun acc tag => (scanTagPages (fetchSearch tag) maxPages 0 acc).1) acc).1.map
          doc_uid,
          u ∈ (l.foldl (fun acc tag => (scanTagPages (fetchSearch tag) maxPages 0 acc).1) acc).2) := by
  intro l
  induction l with
  | nil => intro acc h; exact h
  | cons t ts ih =>
    intro acc h
    rw [List.foldl_cons]
    exact ih _ (scanTagPages_inv (fetchSearch t) maxPages 0 acc h)

/-! ### Concrete fixtures used by witnesses and counterexamples -/

/-- Configuration with score filtering disabled, preview size 3, dispatch on. -/
def cfgStd : Config :=
  { minScore := 0, previewN := 3, dryRun := false, alwaysEmail := true }

/-- Item with a given uid and optional timestamp, and no score. -/
def mkItem (u : String) (t : Option Nat) : Item :=
  { uid := u, created_at := t, score := none }

/-- A five-item pool with distinct identities and increasing timestamps. -/
def poolFive : List Item :=
  [mkItem "m1" (some 1), mkItem "m2" (some 2), mkItem "m3" (some 3),
   mkItem "m4" (some 4), mkItem "m5" (some 5)]

/-- A raw document whose creation instant (10) is far older than any cutoff
used in the scenarios below. -/
def oldDoc : RawDoc :=
  { id := some "old", versions := [], name := "n", createdAt := some 10 }

/-- A fetch function whose every page is non-empty and entirely old. -/
def fetchOld : Nat → Except Unit (List RawDoc) :=
  fun _ => Except.ok [oldDoc]

/-- A fetch function with exactly two non-empty pages followed by empty ones. -/
def fetchTwoPages : Nat → Except Unit (List RawDoc) :=
  fun p => if p < 2 then Except.ok [oldDoc] else Except.ok []

/-! ### Claim theorems -/

/-- C8: for every prior state and fetched pool, a run with the dry-run flag
set and a run with it unset compute the same new-set and persist the same
final state (same watermark and same `seen_ids`); the flag only suppresses
dispatch (the `emailed` output). -/
theorem c8_dry_run_only_suppresses_dispatch (cfg : Config) (st : SyncState)
    (pool fb : List Item) (now : Nat) :
    (mainRun { cfg with dryRun := true } st pool fb now).newItems =
      (mainRun { cfg with dryRun := false } st pool fb now).newItems ∧
    (mainRun { cfg with dryRun := true } st pool fb now).finalState =
      (mainRun { cfg with dryRun := false } st pool fb now).finalState :=
  ⟨rfl, rfl⟩

/-- C9: after every save, the persisted `seen_ids` has at most 20000 entries
(the `list(seen_ids)[-20000:]` truncation), for any starting state, so the
bound holds along every sequence of runs. -/
theorem c9_seen_ids_bounded (cfg : Config) (st : SyncState) (pool fb : List Item) (now : Nat) :
    (mainRun cfg st pool fb now).finalState.seen_ids.length ≤ 20000 := by
  show (takeLast 20000
    (addNewUids st.seen_ids.dedup
      (newItemsOf st.seen_ids.dedup (candidatesOf st (itemsAll cfg pool))))).length ≤ 20000
  exact takeLast_length_le _ _

/-- C10: the merged pool returned by `fetch_merged_latest_for_tags` is
duplicate-free by identity: a document whose `doc_uid` was already collected
from an earlier page or an earlier tag is skipped. -/
theorem c10_merged_pool_identity_nodup (fetchSearch : String → Nat → Except Unit (List RawDoc))
    (fetchLatest : Nat → Except Unit (List RawDoc)) (tags : List String) (maxPages : Nat) :
    ((fetch_merged_latest_for_tags fetchSearch fetchLatest tags maxPages).map doc_uid).Nodup := by
  have base : ((([], []) : List RawDoc × List String).1.map doc_uid).Nodup ∧
      ∀ u ∈ (([], []) : List RawDoc × List String).1.map doc_uid,
        u ∈ (([], []) : List RawDoc × List String).2 := by
    constructor
    · exact List.nodup_nil
    · intro u hu; exact absurd hu (List.not_mem_nil u)
  cases tags with
  | nil => exact (scanTagPages_inv fetchLatest maxPages 0 ([], []) base).1
  | cons t ts => exact (foldTags_inv fetchSearch maxPages (t :: ts) ([], []) base).1

/-- C1 counterexample: the spec's seed scenario (empty state, five qualifying
items, preview size 3) delivers the 3 newest items as a preview, but the
persisted `seen_ids` is empty rather than containing those 3 identities: in
seed mode `candidates` is empty, and `main` persists identities only for
items emailed as "new". -/
theorem c1_seed_counterexample :
    (mainRun cfgStd { last_seen := none, seen_ids := [] } poolFive [] 100).emailed =
      some ([mkItem "m5" (some 5), mkItem "m4" (some 4), mkItem "m3" (some 3)], true) ∧
    (mainRun cfgStd { last_seen := none, seen_ids := [] } poolFive [] 100).finalState.seen_ids
      = [] := by
  constructor
  · rfl
  · rfl

/-- C1 amended: a seed run (no prior watermark) computes an empty new-set,
delivers a preview of the N most-recent qualifying items, and records NO
previewed identity in `seen_ids`: the persisted `seen_ids` is exactly the
loaded set (truncated to the cap).  Re-surfacing on the next delta run is
prevented only for timestamped items, via the watermark advance. -/
theorem c1_seed_preview_not_recorded (cfg : Config) (st : SyncState) (pool fb : List Item)
    (now : Nat) (hseed : st.last_seen = none) (hdry : cfg.dryRun = false)
    (hne : itemsAll cfg pool ≠ [])
    (hsend : (itemsAll cfg pool).take (max cfg.previewN 0).toNat ≠ [] ∨ cfg.alwaysEmail = true) :
    (mainRun cfg st pool fb now).newItems = [] ∧
    (mainRun cfg st pool fb now).emailed =
      some ((itemsAll cfg pool).take (max cfg.previewN 0).toNat, true) ∧
    (mainRun cfg st pool fb now).finalState.seen_ids = takeLast 20000 st.seen_ids.dedup := by
  have hcand : candidatesOf st (itemsAll cfg pool) = [] := by
    rw [candidatesOf, hseed]
  have hnew : newItemsOf st.seen_ids.dedup (candidatesOf st (itemsAll cfg pool)) = [] := by
    rw [hcand]; rfl
  refine ⟨hnew, ?_, ?_⟩
  · show emailedOf cfg (itemsAll cfg pool)
      (newItemsOf st.seen_ids.dedup (candidatesOf st (itemsAll cfg pool)))
      (fallbackPreviewOf cfg (itemsAll cfg pool) fb) = _
    rw [hnew, emailedOf]
    rw [if_neg (by intro hand; exact hand.1 rfl)]
    rw [if_pos hdry]
    have hprev : previewOf cfg (itemsAll cfg pool) (fallbackPreviewOf cfg (itemsAll cfg pool) fb)
        = (itemsAll cfg pool).take (max cfg.previewN 0).toNat := by
      rw [previewOf, if_pos hne]
    rw [hprev, if_pos hsend]
  · show takeLast 20000 (addNewUids st.seen_ids.dedup
      (newItemsOf st.seen_ids.dedup (candidatesOf st (itemsAll cfg pool)))) = _
    rw [hnew]
    rfl

/-- C1 witness: the amended seed statement applied to the concrete scenario
(empty state except one previously-delivered id "z", five-item pool,
preview size 3). -/
theorem c1_seed_preview_not_recorded_witness :
    (mainRun cfgStd { last_seen := none, seen_ids := ["z"] } poolFive [] 100).newItems = [] ∧
    (mainRun cfgStd { last_seen := none, seen_ids := ["z"] } poolFive [] 100).emailed =
      some ((itemsAll cfgStd poolFive).take (max cfgStd.previewN 0).toNat, true) ∧
    (mainRun cfgStd { last_seen := none, seen_ids := ["z"] } poolFive [] 100).finalState.seen_ids
      = takeLast 20000 (["z"] : List String).dedup :=
  c1_seed_preview_not_recorded cfgStd { last_seen := none, seen_ids := ["z"] } poolFive [] 100
    rfl rfl (by decide) (Or.inr rfl)

/-- C2 counterexample: with prior watermark 100, a pool whose only timestamp
is 50, and current time 200, the persisted watermark is 50, strictly below
the loaded watermark 100: `main` sets the watermark to the newest fetched
timestamp without taking the maximum with the prior value. -/
theorem c2_monotonic_counterexample :
    (mainRun cfgStd { last_seen := some 100, seen_ids := [] }
        [mkItem "a" (some 50)] [] 200).finalState.last_seen = some 50 ∧
    ¬ (100 ≤ 50) := by
  constructor
  · rfl
  · omega

theorem maxWithDefault_nil (d : Option Nat) : maxWithDefault [] d = d := rfl

theorem maxWithDefault_cons (x : Nat) (xs : List Nat) (d : Option Nat) :
    maxWithDefault (x :: xs) d = some (xs.foldl Nat.max x) := rfl

theorem lastSeenAfter_eq_some (st : SyncState) (now : Nat) (items : List Item) (m : Nat)
    (h : maxWithDefault (items.filterMap Item.created_at) st.last_seen = some m) :
    lastSeenAfter st now items = some (if now < m then now else m) := by
  rw [lastSeenAfter, h]
  rfl

/-- C2 amended: the persisted watermark is `max` of the filtered pool's
timestamps (defaulting to the loaded watermark) clamped to now; hence it is
at most `now`, and it is at least the loaded watermark PROVIDED the loaded
watermark does not exceed `now` and the pool either has no timestamps or has
some timestamp at least the loaded watermark.  Without that proviso the
watermark can move backwards (see the counterexample): the code does not take
the maximum with the prior value. -/
theorem c2_watermark_clamped_conditionally_monotone (cfg : Config) (st : SyncState)
    (pool fb : List Item) (now w : Nat) (hw : st.last_seen = some w) (hnow : w ≤ now)
    (hm : (itemsAll cfg pool).filterMap Item.created_at = [] ∨
      ∃ t ∈ (itemsAll cfg pool).filterMap Item.created_at, w ≤ t) :
    ∃ t, (mainRun cfg st pool fb now).finalState.last_seen = some t ∧ w ≤ t ∧ t ≤ now := by
  have hshow : (mainRun cfg st pool fb now).finalState.last_seen
      = lastSeenAfter st now (itemsAll cfg pool) := rfl
  rw [hshow]
  rcases hm with hm | ⟨t0, ht0, hwt0⟩
  · rw [lastSeenAfter_eq_some st now _ w (by rw [hm, maxWithDefault_nil, hw])]
    rw [if_neg (by omega)]
    exact ⟨w, rfl, Nat.le_refl w, hnow⟩
  · cases hfm : (itemsAll cfg pool).filterMap Item.created_at with
    | nil => rw [hfm] at ht0; exact absurd ht0 (List.not_mem_nil t0)
    | cons x xs =>
      rw [lastSeenAfter_eq_some st now _ (xs.foldl Nat.max x)
        (by rw [hfm, maxWithDefault_cons])]
      have htM : t0 ≤ xs.foldl Nat.max x := by
        rw [hfm] at ht0
        rcases List.mem_cons.mp ht0 with rfl | ht'
        · exact (le_foldl_max xs t0).1
        · exact (le_foldl_max xs x).2 t0 ht'
      by_cases hcmp : now < xs.foldl Nat.max x
      · rw [if_pos hcmp]
        exact ⟨now, rfl, hnow, Nat.le_refl now⟩
      · rw [if_neg hcmp]
        exact ⟨xs.foldl Nat.max x, rfl, Nat.le_trans hwt0 htM, Nat.le_of_not_lt hcmp⟩

/-- C2 witness: the amended statement at a concrete delta run with prior
watermark 5, one pool timestamp 7 and current time 100: the persisted
watermark exists, is at least 5 and at most 100. -/
theorem c2_watermark_clamped_conditionally_monotone_witness :
    ∃ t, (mainRun cfgStd { last_seen := some 5, seen_ids := [] }
        [mkItem "a" (some 7)] [] 100).finalState.last_seen = some t ∧ 5 ≤ t ∧ t ≤ 100 :=
  c2_watermark_clamped_conditionally_monotone cfgStd { last_seen := some 5, seen_ids := [] }
    [mkItem "a" (some 7)] [] 100 5 rfl (by omega)
    (Or.inr ⟨7, by decide, by omega⟩)

/-- C4: in a delta run, the classification of an item of the filtered pool as
a new-candidate is exactly: its `created_at` is present and strictly greater
than the watermark, or its `created_at` is absent and its identity is not in
the loaded `seen_ids`; in particular an item whose `created_at` equals the
watermark is excluded from the candidates and hence from the final new-set
(which further drops already-delivered and duplicate identities). -/
theorem c4_delta_classification (cfg : Config) (st : SyncState) (pool fb : List Item)
    (now w : Nat) (hw : st.last_seen = some w) (it : Item) :
    (it ∈ candidatesOf st (itemsAll cfg pool) ↔
      it ∈ itemsAll cfg pool ∧
        ((∃ t, it.created_at = some t ∧ w < t) ∨
          (it.created_at = none ∧ it.uid ∉ st.seen_ids))) ∧
    (it.created_at = some w → it ∉ (mainRun cfg st pool fb now).newItems) := by
  refine ⟨mem_candidatesOf st (itemsAll cfg pool) w hw it, ?_⟩
  intro hct hmem
  have hmem' : it ∈ newItemsOf st.seen_ids.dedup (candidatesOf st (itemsAll cfg pool)) := hmem
  have hcand := (mem_newItemsOf _ _ _ hmem').1
  rcases ((mem_candidatesOf st (itemsAll cfg pool) w hw it).mp hcand).2 with ⟨t, ht, hlt⟩ | ⟨hn, _⟩
  · rw [hct] at ht
    injection ht with ht'
    omega
  · rw [hct] at hn
    exact Option.noConfusion hn

/-- C4 witness: an item with timestamp 60 above the watermark 50 is a
candidate in the concrete delta run. -/
theorem c4_delta_classification_witness :
    mkItem "x" (some 60) ∈
      candidatesOf { last_seen := some 50, seen_ids := ["s"] }
        (itemsAll cfgStd [mkItem "x" (some 60)]) :=
  ((c4_delta_classification cfgStd { last_seen := some 50, seen_ids := ["s"] }
      [mkItem "x" (some 60)] [] 100 50 rfl (mkItem "x" (some 60))).1).mpr
    ⟨by decide, Or.inl ⟨60, rfl, by omega⟩⟩

/-- C5 counterexample: a state file that exists but does not parse makes
`load_state` raise (the `json.load` exception propagates): it does not return
the empty/seed default, contradicting the claim that corrupt state is treated
as "no state" and never a fatal error. -/
theorem c5_corrupt_state_counterexample :
    load_state (some FileContent.corrupt) = Except.error () ∧
    load_state (some FileContent.corrupt) ≠
      Except.ok { last_seen := none, seen_ids := [] } :=
  ⟨rfl, fun h => Except.noConfusion h⟩

/-- C5 amended: `load_state` returns the persisted state when the file exists
and parses, returns the empty/seed default when the file does not exist, and
raises (propagates the parse error) when the file exists but is corrupt. -/
theorem c5_load_state_cases (fc : Option FileContent) :
    (fc = none → load_state fc = Except.ok { last_seen := none, seen_ids := [] }) ∧
    (∀ st, fc = some (FileContent.valid st) → load_state fc = Except.ok st) ∧
    (fc = some FileContent.corrupt → load_state fc = Except.error ()) := by
  refine ⟨?_, ?_, ?_⟩
  · rintro rfl; rfl
  · rintro st rfl; rfl
  · rintro rfl; rfl

/-- C5 witness: the amended case analysis applied to a missing file and to a
concrete valid file. -/
theorem c5_load_state_cases_witness :
    load_state none = Except.ok { last_seen := none, seen_ids := [] } ∧
    load_state (some (FileContent.valid { last_seen := some 7, seen_ids := ["x"] })) =
      Except.ok { last_seen := some 7, seen_ids := ["x"] } :=
  ⟨(c5_load_state_cases none).1 rfl,
   (c5_load_state_cases (some (FileContent.valid { last_seen := some 7, seen_ids := ["x"] }))).2.1
     { last_seen := some 7, seen_ids := ["x"] } rfl⟩

/-- C6: an identity present in the loaded `seen_ids` is never part of the
run's new-set, even when its timestamp is above the watermark: the
deduplication loop skips any candidate whose uid is in `seen_ids`. -/
theorem c6_no_redelivery (cfg : Config) (st : SyncState) (pool fb : List Item) (now : Nat)
    (it : Item) (h : it ∈ (mainRun cfg st pool fb now).newItems) :
    it.uid ∉ st.seen_ids := by
  have h' : it ∈ newItemsOf st.seen_ids.dedup (candidatesOf st (itemsAll cfg pool)) := h
  have h2 := (mem_newItemsOf _ _ _ h').2
  rw [List.mem_dedup] at h2
  exact h2

/-- C6 witness: a concrete delta run where item "y" (timestamp 20, watermark
10) is in the new-set, whence its uid is not among the loaded seen ids. -/
theorem c6_no_redelivery_witness :
    mkItem "y" (some 20) ∈
      (mainRun cfgStd { last_seen := some 10, seen_ids := ["x"] }
        [mkItem "y" (some 20)] [] 100).newItems ∧
    (mkItem "y" (some 20)).uid ∉ (["x"] : List String) :=
  ⟨by decide,
   c6_no_redelivery cfgStd { last_seen := some 10, seen_ids := ["x"] }
     [mkItem "y" (some 20)] [] 100 (mkItem "y" (some 20)) (by decide)⟩

/-- C7: when a run's new-set is empty (the preview-delivery case), the
persisted `seen_ids` is exactly the loaded set (truncated to the 20000 cap);
in particular, when the loaded set is within the cap it is persisted
unchanged: delivering a preview adds no identities. -/
theorem c7_preview_non_consumption (cfg : Config) (st : SyncState) (pool fb : List Item)
    (now : Nat) (h : (mainRun cfg st pool fb now).newItems = []) :
    (mainRun cfg st pool fb now).finalState.seen_ids = takeLast 20000 st.seen_ids.dedup ∧
    (st.seen_ids.dedup.length ≤ 20000 →
      (mainRun cfg st pool fb now).finalState.seen_ids = st.seen_ids.dedup) := by
  have h' : newItemsOf st.seen_ids.dedup (candidatesOf st (itemsAll cfg pool)) = [] := h
  have hmain : (mainRun cfg st pool fb now).finalState.seen_ids
      = takeLast 20000 st.seen_ids.dedup := by
    show takeLast 20000 (addNewUids st.seen_ids.dedup
      (newItemsOf st.seen_ids.dedup (candidatesOf st (itemsAll cfg pool)))) = _
    rw [h']
    rfl
  refine ⟨hmain, fun hlen => ?_⟩
  rw [hmain]
  exact takeLast_of_length_le _ _ hlen

/-- C7 witness: a delta run (watermark 100 above every pool timestamp) whose
new-set is empty persists the loaded seen ids unchanged. -/
theorem c7_preview_non_consumption_witness :
    (mainRun cfgStd { last_seen := some 100, seen_ids := ["a", "b"] }
        poolFive [] 200).newItems = [] ∧
    (mainRun cfgStd { last_seen := some 100, seen_ids := ["a", "b"] }
        poolFive [] 200).finalState.seen_ids = ["a", "b"] :=
  ⟨by decide,
   by
    have h := (c7_preview_non_consumption cfgStd
      { last_seen := some 100, seen_ids := ["a", "b"] } poolFive [] 200 (by decide)).2
      (by decide)
    rw [h]
    decide⟩

/-- C3 counterexample: the fetcher has no cutoff-based early termination.
With every page non-empty and consisting solely of a document created at
instant 10 — older than any configured cutoff such as 1000 — the claim
requires stopping after the first page (one request), but the page loop
issues all three budgeted requests. -/
theorem c3_cutoff_counterexample :
    fetchOld 0 = Except.ok [oldDoc] ∧ oldDoc.createdAt = some 10 ∧ 10 < 1000 ∧
    pagesRequested fetchOld 3 = 3 :=
  ⟨rfl, rfl, by omega, rfl⟩

/-- C3 amended: the page loop of `fetch_merged_latest_for_tags` never
inspects timestamps; it stops exactly on the first failed or empty page, or
on exhausting the caller-supplied page maximum: when the first `k` pages are
good (non-empty, successful), the loop issues `maxPages` requests if
`k = maxPages`, and `k + 1` requests if page `k` is bad and `k < maxPages`. -/
theorem c3_fetch_stop_conditions (fetchPage : Nat → Except Unit (List RawDoc))
    (maxPages k : Nat) (hgood : ∀ i, i < k → goodPage fetchPage i) :
    (k = maxPages → pagesRequested fetchPage maxPages = maxPages) ∧
    (k < maxPages → ¬ goodPage fetchPage k → pagesRequested fetchPage maxPages = k + 1) := by
  constructor
  · rintro rfl
    exact scanTagPages_count_all_good fetchPage k 0 ([], [])
      (fun i hi => by simpa using hgood i hi)
  · intro hk hbad
    exact scanTagPages_count_stop fetchPage k maxPages 0 ([], []) hk
      (fun i hi => by simpa using hgood i hi) (by simpa using hbad)

/-- C3 witness: with two good pages followed by an empty page and a budget of
five, the loop issues exactly three requests. -/
theorem c3_fetch_stop_conditions_witness : pagesRequested fetchTwoPages 5 = 3 :=
  (c3_fetch_stop_conditions fetchTwoPages 5 2
      (fun i hi => ⟨oldDoc, [], by simp [fetchTwoPages, hi]⟩)).2
    (by omega)
    (fun hgood => by
      obtain ⟨d, ds, hd⟩ := hgood
      simp [fetchTwoPages] at hd)
